import Mathlib

/-!
Shallow embedding of the SEO-checker-V2 core: the meta-data analyzer
(`src/metaExtractor.js`), the reporter (`src/reporter.js`), and the server's
reconciliation / persistence / tree-projection logic (`server.js`).

Conventions of the embedding:
* JS strings are `String`; JS `null` on a string field is `Option.none`.
* JS objects become structures; a field that can be `undefined` (absent)
  as well as carry a value is an `Option` whose `none` stands for the
  absent/undefined case (noted per field).
* Status values are kept as the raw strings the source uses
  (`"good"`, `"needs_attention"`, `"warning"`, `"error"`, ...).
* Timestamps are opaque strings supplied by the caller (`now`).
-/

namespace SEO

/-- One persisted review record (`url-reviews.json` entry).  The first five
fields are the human review-workflow data written by `/api/reviews/update`;
the last three are scan metadata written during analysis passes. -/
structure Review where
  status : Option String := none
  assignee : Option String := none
  notes : Option String := none
  lastReviewed : Option String := none
  lastUpdated : Option String := none
  seoStatus : Option String := none
  hasIssues : Option Bool := none
  lastAnalyzed : Option String := none
deriving Repr, DecidableEq

/-- One page analysis result, as produced by `MetaExtractor.extractMetaData`
and then enriched by the server (review annotation, change stamping,
`sitemapUrl` stamping on save).  `hasChanged = none` models the JS
`undefined` (field absent); `changeType = none` models JS `null`. -/
structure PageResult where
  url : String
  title : Option String := none
  metaDescription : Option String := none
  hasMetaDescription : Bool := false
  characterCount : Nat := 0
  status : String := "good"
  issues : List String := []
  reviewStatus : Option String := none
  assignee : Option String := none
  notes : Option String := none
  lastReviewed : Option String := none
  lastCrawled : Option String := none
  lastModified : Option String := none
  hasChanged : Option Bool := none
  changeType : Option String := none
  sitemapUrl : Option String := none
deriving Repr, DecidableEq

/-- A change-history entry.  The JS objects carry a `changeType`
discriminator string (`"new_url"` / `"meta_description"` / `"title"`); the
`new_url` shape has no `oldValue` key, which the inductive makes precise. -/
inductive ChangeEvent where
  | newUrl (url : String) (newValue : Option String) (timestamp : String)
  | metaDescr (url : String) (oldValue newValue : Option String)
      (timestamp : String)
  | titleChange (url : String) (oldValue newValue : Option String)
      (timestamp : String)
deriving Repr, DecidableEq

/-- The JS `changeType` discriminator string of a change event. -/
def ChangeEvent.ctype : ChangeEvent → String
  | .newUrl .. => "new_url"
  | .metaDescr .. => "meta_description"
  | .titleChange .. => "title"

/-- The `url` field of a change event. -/
def ChangeEvent.url : ChangeEvent → String
  | .newUrl u _ _ => u
  | .metaDescr u _ _ _ => u
  | .titleChange u _ _ _ => u

namespace MetaExtractor

/-- The key list of the `wordCount` object: JS object keys iterate in
insertion order, i.e. in order of each word's first occurrence. -/
def insertionKeys (words : List String) : List String :=
  words.foldl (fun acc w => if acc.contains w then acc else acc ++ [w]) []

/-- Lower-casing, character by character (JS `toLowerCase`). -/
def strLower (s : String) : String :=
  String.mk (s.data.map Char.toLower)

/-- Split a character list at every character satisfying `p` (the empty
pieces a JS `split(/\s+/)` would merge are filtered away by the length
check at the use site). -/
def splitOnPred (p : Char → Bool) : List Char → List String
  | [] => [""]
  | c :: cs =>
    if p c then "" :: splitOnPred p cs
    else
      match splitOnPred p cs with
      | h :: t => String.mk (c :: h.data) :: t
      | [] => [String.mk [c]]

/-- `MetaExtractor.findDuplicateWords`: lower-case, split on whitespace,
keep words longer than 3 characters, return (in first-occurrence order)
those that occur more than once. -/
def findDuplicateWords (text : String) : List String :=
  let words := (splitOnPred Char.isWhitespace (strLower text).data).filter
    (fun word => 3 < word.length)
  (insertionKeys words).filter (fun word => 1 < words.count word)

/-- The issue string for a too-short description. -/
def tooShortMsg (length : Nat) : String :=
  "Meta description too short (" ++ toString length ++
    " chars) - recommended 120-160 characters"

/-- The issue string for a too-long description. -/
def tooLongMsg (length : Nat) : String :=
  "Meta description too long (" ++ toString length ++
    " chars) - recommended 120-160 characters"

/-- `MetaExtractor.analyzeIssues`.  JS truthiness: a `null` or empty
`metaDescription` short-circuits to the single missing-description issue;
an empty or `null` `title` skips the identical-to-title check. -/
def analyzeIssues (metaDescription title : Option String) : List String :=
  match metaDescription with
  | none => ["Missing meta description"]
  | some md =>
    if md = "" then ["Missing meta description"]
    else
      let lengthIssues :=
        if md.length < 120 then [tooShortMsg md.length]
        else if 160 < md.length then [tooLongMsg md.length]
        else []
      let titleIssues :=
        match title with
        | some t =>
          if t ≠ "" ∧ strLower md = strLower t then
            ["Meta description is identical to title"]
          else []
        | none => []
      let loremIssues :=
        if ("lorem ipsum".data <:+: (strLower md).data) then
          ["Contains placeholder text (Lorem ipsum)"]
        else []
      let dups := findDuplicateWords md
      let dupIssues :=
        if dups ≠ [] then
          ["Contains repeated words: " ++ String.intercalate ", " dups]
        else []
      let punctIssues :=
        match md.data.getLast? with
        | some c =>
          if c = '.' ∨ c = '!' ∨ c = '?' then []
          else ["Meta description should end with punctuation"]
        | none => ["Meta description should end with punctuation"]
      lengthIssues ++ titleIssues ++ loremIssues ++ dupIssues ++ punctIssues

/-- Core of `MetaExtractor.extractMetaData` after the cheerio extraction
boundary: `title` and `metaDescription` are the signals the external HTML
parser produced (already trimmed, with the source's `|| null` coercing an
empty extraction to `null`). -/
def extractMetaData (url : String) (title metaDescription : Option String) :
    PageResult :=
  let characterCount := (metaDescription.getD "").length
  let hasMetaDescription := metaDescription.getD "" ≠ ""
  let issues := analyzeIssues metaDescription title
  let status := if 0 < issues.length then "needs_attention" else "good"
  { url := url, title := title, metaDescription := metaDescription
    hasMetaDescription := hasMetaDescription
    characterCount := characterCount, status := status, issues := issues }

end MetaExtractor

/-- `Math.round` of the percentage `num / den * 100`, as a natural number:
`floor (num * 100 / den + 1/2)`.  The source guards the `den = 0`, `num = 0`
case with `|| 0` (rounding `NaN` to `0`); `den = 0` with `num > 0` (an
infinite percentage) does not occur on the inputs the claims touch. -/
def mathRoundPct (num den : Nat) : Nat :=
  if den = 0 then 0 else (num * 200 + den) / (den * 2)

namespace Reporter

/-- The summary record returned by `Reporter.generateSummary`.
`missingMetaDescription` is a JS subtraction that can go negative, hence
`Int`. -/
structure Summary where
  total : Nat
  withMetaDescription : Nat
  missingMetaDescription : Int
  needsAttention : Nat
  errors : Nat
  good : Nat
  percentageWithMeta : Nat
deriving Repr, DecidableEq

/-- `Reporter.generateSummary` over the result list set by `setResults`. -/
def generateSummary (results : List PageResult) : Summary :=
  let total := results.length
  let withMetaDescription :=
    (results.filter (fun r => r.hasMetaDescription)).length
  let needsAttention :=
    (results.filter (fun r => r.status = "needs_attention")).length
  let errors := (results.filter (fun r => r.status = "error")).length
  let good := (results.filter (fun r => r.status = "good")).length
  { total := total
    withMetaDescription := withMetaDescription
    missingMetaDescription :=
      (total : Int) - withMetaDescription - errors
    needsAttention := needsAttention
    errors := errors
    good := good
    percentageWithMeta := mathRoundPct withMetaDescription (total - errors) }

end Reporter

/-- The summary record returned by the server's `generateQuickSummary`. -/
structure QuickSummary where
  total : Nat
  withMetaDescription : Nat
  missingMetaDescription : Nat
  percentageWithMeta : Nat
  good : Nat
  warning : Nat
  error : Nat
  errors : Nat
deriving Repr, DecidableEq

/-- `generateQuickSummary` (server.js): status counts plus meta-description
coverage, with `percentageWithMeta` guarded by `total > 0`. -/
def generateQuickSummary (results : List PageResult) : QuickSummary :=
  let total := results.length
  let withMetaDescription :=
    (results.filter (fun r => r.hasMetaDescription)).length
  let errorCount := (results.filter (fun r => r.status = "error")).length
  { total := total
    withMetaDescription := withMetaDescription
    missingMetaDescription := total - withMetaDescription
    percentageWithMeta :=
      if 0 < total then mathRoundPct withMetaDescription total else 0
    good := (results.filter (fun r => r.status = "good")).length
    warning := (results.filter (fun r => r.status = "warning")).length
    error := errorCount
    errors := errorCount }

/-! ## Server-side reconciliation (server.js) -/

/-- JS `a || b` on a nullable string, yielding a plain string default:
`null`/`undefined` and the empty string are falsy. -/
def jsOrStr (o : Option String) (d : String) : String :=
  match o with
  | some s => if s = "" then d else s
  | none => d

/-- JS `a || b` on nullable strings (`b` itself nullable, e.g. `x || null`). -/
def jsOrOpt (o fb : Option String) : Option String :=
  match o with
  | some s => if s = "" then fb else some s
  | none => fb

/-- Review annotation of a fresh result (`/api/analyze`, both the
`newResults` map and the incremental early-return map):
`review?.status || 'new'`, `review?.assignee || null`, etc. -/
def annotateResult (reviews : String → Option Review) (r : PageResult) :
    PageResult :=
  let review := reviews r.url
  { r with
    reviewStatus := some (jsOrStr (review.bind (·.status)) "new")
    assignee := jsOrOpt (review.bind (·.assignee)) none
    notes := jsOrOpt (review.bind (·.notes)) none
    lastReviewed := jsOrOpt (review.bind (·.lastReviewed)) none }

/-- Review annotation of a retained existing result in the incremental
merge (`existingWithReviews`): each field falls back to the value already
on the stored result before defaulting. -/
def annotateExisting (reviews : String → Option Review) (r : PageResult) :
    PageResult :=
  let review := reviews r.url
  { r with
    reviewStatus :=
      some (jsOrStr (review.bind (·.status)) (jsOrStr r.reviewStatus "new"))
    assignee := jsOrOpt (review.bind (·.assignee)) (jsOrOpt r.assignee none)
    notes := jsOrOpt (review.bind (·.notes)) (jsOrOpt r.notes none)
    lastReviewed :=
      jsOrOpt (review.bind (·.lastReviewed)) (jsOrOpt r.lastReviewed none) }

/-- The scan's update of one review record (`/api/analyze` and
`/api/selective-scan`): spread the existing record (or `{}`) and overwrite
`seoStatus`, `hasIssues`, `lastAnalyzed`. -/
def scanStampReview (now : String) (old : Option Review) (r : PageResult) :
    Review :=
  let base := old.getD {}
  { base with
    seoStatus := some r.status
    hasIssues := some (!r.issues.isEmpty)
    lastAnalyzed := some now }

/-- The `updatedReviews` map built by a scan: for every analysed result,
stamp that URL's review record with the scan metadata. -/
def updateReviewsWithScan (now : String) (reviews : String → Option Review)
    (batch : List PageResult) : String → Option Review :=
  batch.foldl
    (fun m r => fun u =>
      if u = r.url then some (scanStampReview now (m r.url) r) else m u)
    reviews

/-- Replace the first entry whose `url` matches (`findIndex` plus index
assignment in the source); leaves the list unchanged when no entry
matches. -/
def replaceFirst (nr : PageResult) : List PageResult → List PageResult
  | [] => []
  | r :: rs =>
    if r.url = nr.url then nr :: rs else r :: replaceFirst nr rs

/-- One step of the selective-scan merge: `findIndex` on the evolving
array, assign in place when found, `push` otherwise. -/
def replaceOrAppend (acc : List PageResult) (nr : PageResult) :
    List PageResult :=
  if acc.any (fun r => r.url = nr.url) then replaceFirst nr acc
  else acc ++ [nr]

/-- The selective-scan merge (`/api/selective-scan`): start from the
existing results and fold the fresh batch with replace-or-append. -/
def selectiveMerge (existing fresh : List PageResult) : List PageResult :=
  fresh.foldl replaceOrAppend existing

/-- The incremental merge in `/api/analyze`: membership is tested against
the static set of existing URLs (`allUrls`, which the source never extends
on push), replacement positions are found on the evolving array. -/
def incrementalMerge (existing fresh : List PageResult) : List PageResult :=
  let allUrls := existing.map (·.url)
  fresh.foldl
    (fun acc nr =>
      if allUrls.contains nr.url then replaceFirst nr acc else acc ++ [nr])
    existing

/-- Per-result change detection of `/api/analyze` (the `timestampedResults`
map): compare against the first matching entry of the previously persisted
results, stamp `lastCrawled`/`hasChanged`/`changeType`, and push the
detected change events (meta-description event before title event). -/
def detectItem (existing : List PageResult) (now : String) (r : PageResult) :
    PageResult × List ChangeEvent :=
  match existing.find? (fun o => o.url = r.url) with
  | some old =>
    let mdDiff : Bool := decide (old.metaDescription ≠ r.metaDescription)
    let tDiff : Bool := decide (old.title ≠ r.title)
    let events :=
      (if mdDiff then
        [ChangeEvent.metaDescr r.url old.metaDescription r.metaDescription now]
       else []) ++
      (if tDiff then
        [ChangeEvent.titleChange r.url old.title r.title now]
       else [])
    ({ r with
        lastCrawled := some now
        hasChanged := some (mdDiff || tDiff)
        changeType := if mdDiff then some "modified" else none },
      events)
  | none =>
    ({ r with
        lastCrawled := some now
        hasChanged := some true
        changeType := some "new" },
      [ChangeEvent.newUrl r.url r.metaDescription now])

/-- Change detection over the whole merged set: the stamped results in
order, and the change events concatenated in result order. -/
def detectChanges (existing : List PageResult) (now : String)
    (rs : List PageResult) : List PageResult × List ChangeEvent :=
  (rs.map (fun r => (detectItem existing now r).1),
   (rs.map (fun r => (detectItem existing now r).2)).flatten)

/-- `saveScanResults` stamps every persisted entry with the sitemap URL. -/
def saveScanResultsShape (sitemapUrl : String) (results : List PageResult) :
    List PageResult :=
  results.map (fun r => { r with sitemapUrl := some sitemapUrl })

/-- `saveChangeHistory`: append the new changes to the stored history and
keep only the most recent 1000 entries (`history.slice(-1000)`). -/
def saveChangeHistoryRetained (history changes : List ChangeEvent) :
    List ChangeEvent :=
  let h := history ++ changes
  if 1000 < h.length then h.drop (h.length - 1000) else h

/-- The observable outcome of one scan pass: which URLs were handed to the
page analyzer, what (if anything) was written to the Result Store and the
Change Ledger, the Review Store contents afterwards, and the merged result
set emitted to the dashboard. -/
structure ScanOutcome where
  crawledUrls : List String
  persistedStore : Option (List PageResult)
  ledgerAppend : List ChangeEvent
  reviewsAfter : String → Option Review
  merged : List PageResult

/-- `/api/analyze` for `scanMode ∈ {full, incremental}`.  `fetchA` is the
external page-analyzer boundary: crawling one URL and running
`MetaExtractor.processPages` on the fetch result (the chunked crawl loop
concatenates its chunk results, so the analysed batch is exactly
`urls.map fetchA` in input order). -/
def analyzePass (fetchA : String → PageResult) (now sitemapUrl : String)
    (urls0 : List String) (existing : List PageResult)
    (reviews : String → Option Review) (scanMode : String) (maxPages : Nat) :
    ScanOutcome :=
  if scanMode = "incremental" ∧
      urls0.filter
        (fun u => !(existing.map (fun r => r.url)).contains u) = [] then
    { crawledUrls := []
      persistedStore := none
      ledgerAppend := []
      reviewsAfter := reviews
      merged := existing.map (annotateResult reviews) }
  else
    let urls1 :=
      if scanMode = "incremental" then
        urls0.filter
          (fun u => !(existing.map (fun r => r.url)).contains u)
      else urls0
    let urls := urls1.take maxPages
    let analysisResults := urls.map fetchA
    let updatedReviews := updateReviewsWithScan now reviews analysisResults
    let newResults := analysisResults.map (annotateResult updatedReviews)
    let finalResults :=
      if scanMode = "incremental" ∧ existing ≠ [] then
        incrementalMerge (existing.map (annotateExisting reviews)) newResults
      else newResults
    let stamped := detectChanges existing now finalResults
    { crawledUrls := urls
      persistedStore := some (saveScanResultsShape sitemapUrl stamped.1)
      ledgerAppend := stamped.2
      reviewsAfter := updatedReviews
      merged := finalResults }

/-- The map from URL to stored result built by `/api/selective-scan`
(`existingUrlsMap`; a later duplicate URL overwrites an earlier one). -/
def buildUrlMap (results : List PageResult) : String → Option PageResult :=
  results.foldl
    (fun m r => fun u => if u = r.url then some r else m u)
    (fun _ => none)

/-- Annotation of one freshly scanned result in `/api/selective-scan`:
review fields, `lastCrawled`, and the selective change flags.  For a URL
with no stored counterpart `hasChanged` is the JS `undefined`
(`oldResult && ...`), modelled as `none`. -/
def selAnnotate (existingMap : String → Option PageResult)
    (updatedReviews : String → Option Review) (now : String)
    (r : PageResult) : PageResult :=
  let oldResult := existingMap r.url
  let review := updatedReviews r.url
  { r with
    lastCrawled := some now
    reviewStatus := some (jsOrStr (review.bind (·.status)) "new")
    assignee := jsOrOpt (review.bind (·.assignee)) none
    notes := jsOrOpt (review.bind (·.notes)) none
    lastReviewed := jsOrOpt (review.bind (·.lastReviewed)) none
    hasChanged :=
      oldResult.map (fun o => decide (o.metaDescription ≠ r.metaDescription))
    changeType :=
      match oldResult with
      | some o =>
        if o.metaDescription ≠ r.metaDescription then some "modified"
        else none
      | none => some "new" }

/-- `/api/selective-scan`: crawl exactly the requested URLs, stamp reviews,
annotate, merge into the existing results with replace-or-append, persist.
The endpoint computes no change events and never writes the change
ledger. -/
def selectivePass (fetchA : String → PageResult) (now sitemapUrl : String)
    (urls : List String) (existing : List PageResult)
    (reviews : String → Option Review) : ScanOutcome :=
  let analysisResults := urls.map fetchA
  let updatedReviews := updateReviewsWithScan now reviews analysisResults
  let existingMap := buildUrlMap existing
  let timestamped :=
    analysisResults.map (selAnnotate existingMap updatedReviews now)
  let finalResults := selectiveMerge existing timestamped
  { crawledUrls := urls
    persistedStore := some (saveScanResultsShape sitemapUrl finalResults)
    ledgerAppend := []
    reviewsAfter := updatedReviews
    merged := finalResults }

/-- `/api/scan-results/update` applied to the matched entry: overwrite
title/metaDescription/characterCount and recompute `status`/`issues` from
the new meta description alone. -/
def applyManualUpdate (now : String) (r : PageResult)
    (title metaDescription : Option String) : PageResult :=
  let characterCount := (metaDescription.getD "").length
  let base :=
    { r with
        title := title
        metaDescription := metaDescription
        characterCount := characterCount }
  let base :=
    if metaDescription.getD "" = "" ∨ characterCount = 0 then
      { base with status := "error", issues := ["Missing meta description"] }
    else if 120 ≤ characterCount ∧ characterCount ≤ 160 then
      { base with status := "good", issues := [] }
    else if characterCount < 120 then
      { base with
          status := "warning"
          issues := ["Meta description too short (aim for 120-160 characters)"] }
    else
      { base with
          status := "warning"
          issues := ["Meta description too long (aim for 120-160 characters)"] }
  { base with lastModified := some now }

/-! ## Tree projector (`buildUrlTree` in server.js) -/

/-- Pathname extraction of the platform `new URL(...)` constructor,
restricted to absolute http(s) URLs: strip the scheme, require a non-empty
authority, and return the path up to any query or fragment (`"/"` when the
authority is not followed by a slash).  URLs this returns `none` for are
the ones the source's `try`/`catch` skips. -/
def parsePathname (s : String) : Option String :=
  let cs := s.data
  let rest? :=
    if cs.take 8 = "https://".data then some (cs.drop 8)
    else if cs.take 7 = "http://".data then some (cs.drop 7)
    else none
  match rest? with
  | none => none
  | some rest =>
    let auth := rest.takeWhile (fun c => ¬(c = '/' ∨ c = '?' ∨ c = '#'))
    if auth = [] then none
    else
      match rest.drop auth.length with
      | '/' :: tail =>
        some (String.mk
          ('/' :: tail.takeWhile (fun c => ¬(c = '?' ∨ c = '#'))))
      | _ => some "/"

/-- JS `s.split(sep)` on a string, one-character separator. -/
def jsSplit (s : String) (sep : Char) : List String :=
  MetaExtractor.splitOnPred (fun c => c = sep) s.data

/-- The per-node status counters of the tree. -/
structure Stats where
  good : Nat := 0
  warning : Nat := 0
  error : Nat := 0
  total : Nat := 0
deriving Repr, DecidableEq

/-- Componentwise sum of two counters. -/
def Stats.add (a b : Stats) : Stats :=
  { good := a.good + b.good
    warning := a.warning + b.warning
    error := a.error + b.error
    total := a.total + b.total }

/-- A tree node: name, path, children keyed by path segment (kept in
insertion order, as JS object keys are), the results attached at exactly
this node, and the rolled-up counters. -/
inductive Tree where
  | mk (name path : String) (children : List (String × Tree))
      (urls : List PageResult) (stats : Stats)

/-- The node's children. -/
def Tree.children : Tree → List (String × Tree)
  | .mk _ _ ch _ _ => ch

/-- The results attached at exactly this node. -/
def Tree.urls : Tree → List PageResult
  | .mk _ _ _ us _ => us

/-- The node's counters. -/
def Tree.stats : Tree → Stats
  | .mk _ _ _ _ st => st

/-- The node's path. -/
def Tree.path : Tree → String
  | .mk _ p _ _ _ => p

/-- Replace the value under `key`, keeping its position (JS object
property update), or append a new key. -/
def setChild (children : List (String × Tree)) (key : String) (c : Tree) :
    List (String × Tree) :=
  match children with
  | [] => [(key, c)]
  | (k, v) :: rest =>
    if k = key then (key, c) :: rest else (k, v) :: setChild rest key c

/-- The walk/create loop of `buildUrlTree` over the path segments: create
missing children on the way down and attach the result to the deepest
node only. -/
def insertSegs (r : PageResult) : Tree → String → List String → Tree
  | t, _, [] => t
  | .mk name path children urls st, curPath, seg :: rest =>
    let childPath := curPath ++ "/" ++ seg
    let child :=
      match children.lookup seg with
      | some c => c
      | none => Tree.mk seg childPath [] [] {}
    let child' :=
      match rest with
      | [] =>
        match child with
        | .mk cn cp cch curls cst => Tree.mk cn cp cch (curls ++ [r]) cst
      | _ :: _ => insertSegs r child childPath rest
    Tree.mk name path (setChild children seg child') urls st

/-- Insert one result: parse its URL, split the pathname on `/`, drop the
empty segments, and walk; a result whose URL fails to parse is skipped. -/
def insertResult (t : Tree) (r : PageResult) : Tree :=
  match parsePathname r.url with
  | none => t
  | some pathname =>
    let pathParts := (jsSplit pathname '/').filter (fun p => p ≠ "")
    insertSegs r t "" pathParts

/-- One result's contribution to a node's counters (`calculateStats`):
legacy `needs_attention` maps to `warning`; a status that is one of the
counter object's own keys (`good`/`warning`/`error`/`total`,
`hasOwnProperty`) increments that key; anything else increments `warning`;
`total` is always incremented afterwards. -/
def addStatus (s : Stats) (status : String) : Stats :=
  let s :=
    if status = "needs_attention" then { s with warning := s.warning + 1 }
    else if status = "good" then { s with good := s.good + 1 }
    else if status = "warning" then { s with warning := s.warning + 1 }
    else if status = "error" then { s with error := s.error + 1 }
    else if status = "total" then { s with total := s.total + 1 }
    else { s with warning := s.warning + 1 }
  { s with total := s.total + 1 }

/-- The bucketing the specification describes: `good` and `error` count
into their own buckets and every other status (unknown or legacy) counts
as `warning`. -/
def specAddStatus (s : Stats) (status : String) : Stats :=
  let s :=
    if status = "good" then { s with good := s.good + 1 }
    else if status = "error" then { s with error := s.error + 1 }
    else { s with warning := s.warning + 1 }
  { s with total := s.total + 1 }

mutual

/-- `calculateStats`: recompute a node's counters bottom-up (own urls
first, then the children's rolled-up counters) and store them. -/
def calcTree : Tree → Tree × Stats
  | .mk name path children urls _ =>
    let own := urls.foldl (fun s r => addStatus s r.status) {}
    let sub := calcChildren children
    let st := own.add sub.2
    (Tree.mk name path sub.1 urls st, st)

/-- `calculateStats` over a child list, in order. -/
def calcChildren : List (String × Tree) → List (String × Tree) × Stats
  | [] => ([], {})
  | (k, c) :: rest =>
    let first := calcTree c
    let others := calcChildren rest
    ((k, first.1) :: others.1, first.2.add others.2)

end

/-- `buildUrlTree`: fold every result into an empty root and then run the
stats pass. -/
def buildUrlTree (results : List PageResult) : Tree :=
  let root := Tree.mk "/" "/" [] [] {}
  (calcTree (results.foldl insertResult root)).1

/-- First stored entry with the given URL (`results.find(r => r.url === u)`). -/
def findByUrl (l : List PageResult) (u : String) : Option PageResult :=
  l.find? (fun r => r.url = u)

/-- The annotated fresh batch of `/api/selective-scan` (its
`timestampedResults`): the crawled-and-analysed results, review-annotated
and change-flagged against the stored map. -/
def selectiveFresh (fetchA : String → PageResult) (now : String)
    (existing : List PageResult) (reviews : String → Option Review)
    (urls : List String) : List PageResult :=
  (urls.map fetchA).map
    (selAnnotate (buildUrlMap existing)
      (updateReviewsWithScan now reviews (urls.map fetchA)) now)

/-! ## Theorems -/

/-- C7: the Change Ledger is bounded.  After any append the retained
history has at most 1000 entries, is a suffix of the old history followed
by the new changes (so retained entries are never modified and eviction is
FIFO from the front), and when the append exceeds 1000 exactly the most
recent 1000 remain. -/
theorem c7_ledger_bound (history changes : List ChangeEvent) :
    (saveChangeHistoryRetained history changes).length ≤ 1000 ∧
    saveChangeHistoryRetained history changes <:+ history ++ changes ∧
    (1000 < (history ++ changes).length →
      saveChangeHistoryRetained history changes =
        (history ++ changes).drop ((history ++ changes).length - 1000) ∧
      (saveChangeHistoryRetained history changes).length = 1000) := by
  have key : saveChangeHistoryRetained history changes =
      if 1000 < (history ++ changes).length then
        (history ++ changes).drop ((history ++ changes).length - 1000)
      else history ++ changes := rfl
  by_cases h : 1000 < (history ++ changes).length
  · rw [key, if_pos h]
    refine ⟨?_, List.drop_suffix _ _, fun _ => ⟨rfl, ?_⟩⟩
    · rw [List.length_drop]; omega
    · rw [List.length_drop]; omega
  · rw [key, if_neg h]
    exact ⟨by omega, List.suffix_refl _, fun hc => absurd hc h⟩

/-- C7 witness: appending one event to a 1001-entry ledger truncates to
the last 1000 (2 oldest entries evicted). -/
theorem c7_ledger_bound_witness :
    1000 < ((List.replicate 1001 (ChangeEvent.newUrl "u" none "t")) ++
        [ChangeEvent.titleChange "u" none (some "x") "t"]).length ∧
    saveChangeHistoryRetained
        (List.replicate 1001 (ChangeEvent.newUrl "u" none "t"))
        [ChangeEvent.titleChange "u" none (some "x") "t"] =
      ((List.replicate 1001 (ChangeEvent.newUrl "u" none "t")) ++
        [ChangeEvent.titleChange "u" none (some "x") "t"]).drop 2 := by
  have h : 1000 < ((List.replicate 1001 (ChangeEvent.newUrl "u" none "t")) ++
      [ChangeEvent.titleChange "u" none (some "x") "t"]).length := by
    simp only [List.length_append, List.length_replicate, List.length_cons,
      List.length_nil]
    omega
  refine ⟨h, ?_⟩
  have h2 := (c7_ledger_bound
    (List.replicate 1001 (ChangeEvent.newUrl "u" none "t"))
    [ChangeEvent.titleChange "u" none (some "x") "t"]).2.2 h
  have hlen : ((List.replicate 1001 (ChangeEvent.newUrl "u" none "t")) ++
      [ChangeEvent.titleChange "u" none (some "x") "t"]).length - 1000 = 2 := by
    simp only [List.length_append, List.length_replicate, List.length_cons,
      List.length_nil]
  rw [h2.1, hlen]

/-- C6: in the `/api/analyze` reconciliation, a rescanned URL whose title
differs while its meta description is unchanged gets exactly one `title`
change event carrying the old and new titles, `hasChanged = true`, and a
coarse `changeType` left at `null`. -/
theorem c6_title_only_change (existing : List PageResult) (now : String)
    (r old : PageResult)
    (hfind : existing.find? (fun o => o.url = r.url) = some old)
    (hmd : old.metaDescription = r.metaDescription)
    (ht : old.title ≠ r.title) :
    detectItem existing now r =
      ({ r with
          lastCrawled := some now
          hasChanged := some true
          changeType := none },
        [ChangeEvent.titleChange r.url old.title r.title now]) := by
  unfold detectItem
  rw [hfind]
  simp [hmd, ht]

/-- The stored entry of the concrete C6 scenario. -/
def c6Stored : PageResult :=
  { url := "https://x.com/p", title := some "A", metaDescription := some "m" }

/-- The freshly scanned entry of the concrete C6 scenario: same meta
description, different title. -/
def c6Fresh : PageResult :=
  { url := "https://x.com/p", title := some "B", metaDescription := some "m" }

/-- C6 witness: a concrete title-only change. -/
theorem c6_title_only_change_witness :
    detectItem [c6Stored] "t1" c6Fresh =
      ({ c6Fresh with
          lastCrawled := some "t1"
          hasChanged := some true
          changeType := none },
       [ChangeEvent.titleChange c6Fresh.url c6Stored.title c6Fresh.title
          "t1"]) :=
  c6_title_only_change [c6Stored] "t1" c6Fresh c6Stored (by decide)
    (by decide) (by decide)

/-- C8: an incremental pass over a sitemap whose URLs are all already in
the store crawls nothing, writes neither the Result Store nor the ledger,
leaves the Review Store untouched, and returns the existing results
annotated with the current review state. -/
theorem c8_incremental_skip (fetchA : String → PageResult)
    (now sitemapUrl : String) (urls0 : List String)
    (existing : List PageResult) (reviews : String → Option Review)
    (maxPages : Nat)
    (hall : ∀ u ∈ urls0, u ∈ existing.map (fun r => r.url)) :
    (analyzePass fetchA now sitemapUrl urls0 existing reviews
        "incremental" maxPages).crawledUrls = [] ∧
    (analyzePass fetchA now sitemapUrl urls0 existing reviews
        "incremental" maxPages).persistedStore = none ∧
    (analyzePass fetchA now sitemapUrl urls0 existing reviews
        "incremental" maxPages).ledgerAppend = [] ∧
    (analyzePass fetchA now sitemapUrl urls0 existing reviews
        "incremental" maxPages).reviewsAfter = reviews ∧
    (analyzePass fetchA now sitemapUrl urls0 existing reviews
        "incremental" maxPages).merged =
      existing.map (annotateResult reviews) := by
  have hfil : urls0.filter
      (fun u => !(existing.map (fun r => r.url)).contains u) = [] := by
    rw [List.filter_eq_nil_iff]
    intro u hu
    have := hall u hu
    simp [this]
  unfold analyzePass
  rw [if_pos ⟨rfl, hfil⟩]
  exact ⟨rfl, rfl, rfl, rfl, rfl⟩

/-- C8 witness: one already-scanned URL, incremental mode. -/
theorem c8_incremental_skip_witness :
    (analyzePass (fun u => { url := u }) "t1" "s" ["https://x.com/p1"]
        [{ url := "https://x.com/p1" }] (fun _ => none)
        "incremental" 100).crawledUrls = [] ∧
    (analyzePass (fun u => { url := u }) "t1" "s" ["https://x.com/p1"]
        [{ url := "https://x.com/p1" }] (fun _ => none)
        "incremental" 100).persistedStore = none := by
  have h := c8_incremental_skip (fun u => { url := u }) "t1" "s"
    ["https://x.com/p1"] [{ url := "https://x.com/p1" }] (fun _ => none)
    100 (by decide)
  exact ⟨h.1, h.2.1⟩

/-- C10: a parseable URL with no non-empty path segment (a site-root URL)
is attached to no tree node at all, so the root's own `urls` stay empty
and the root total undercounts the parseable results. -/
theorem c10_root_url_excluded :
    (∀ (t : Tree) (r : PageResult) (pn : String),
        parsePathname r.url = some pn →
        (jsSplit pn '/').filter (fun p => p ≠ "") = [] →
        insertResult t r = t) ∧
    (buildUrlTree [{ url := "https://x.com/" }]).urls = [] ∧
    (buildUrlTree [{ url := "https://x.com/" }]).children.length = 0 ∧
    (buildUrlTree [{ url := "https://x.com/" }]).stats.total <
      (([({ url := "https://x.com/" } : PageResult)].filter
          (fun r => (parsePathname r.url).isSome)).length) := by
  refine ⟨?_, by decide, by decide, by decide⟩
  intro t r pn h1 h2
  unfold insertResult
  rw [h1]
  simp only [h2]
  cases t
  rfl

/-- C10 witness: inserting the site-root URL into the empty root changes
nothing. -/
theorem c10_root_url_excluded_witness :
    insertResult (Tree.mk "/" "/" [] [] {}) { url := "https://x.com/" } =
      Tree.mk "/" "/" [] [] {} :=
  c10_root_url_excluded.1 _ _ "/" (by decide) (by decide)

/-- The meta description of the first E2E page: 140 characters, ending in
a full stop (no analyzer issue fires). -/
def e2eMd : String := String.mk (List.replicate 139 'a' ++ ['.'])

/-- The page-analyzer boundary of the two-page E2E scenario: `p1` carries
the 140-character description, `p2` has none. -/
def e2eFetch : String → PageResult := fun u =>
  if u = "https://x.com/p1" then
    MetaExtractor.extractMetaData u none (some e2eMd)
  else MetaExtractor.extractMetaData u none none

/-- The first E2E scan: full mode, empty store, both pages crawled. -/
def e2ePass : ScanOutcome :=
  analyzePass e2eFetch "t0" "https://x.com/sitemap.xml"
    ["https://x.com/p1", "https://x.com/p2"] [] (fun _ => none) "full" 100

set_option maxRecDepth 80000 in
/-- C2 counterexample: in the two-page scenario the summary the scan
completion emits counts `p2` as `needs_attention` (not `error`): the
error count is 0, not the claimed 1, and the claimed `{good, warning,
error}` triple does not describe the emitted record. -/
theorem c2_counterexample :
    (Reporter.generateSummary e2ePass.merged).errors = 0 ∧
    (Reporter.generateSummary e2ePass.merged).needsAttention = 1 ∧
    (Reporter.generateSummary e2ePass.merged).good = 1 := by decide

set_option maxRecDepth 80000 in
/-- C2 amended: the summary emitted for the two-page scenario is exactly
the reporter's record `{total, withMetaDescription,
missingMetaDescription, needsAttention, errors, good,
percentageWithMeta}` with values 2/1/1/1/0/1/50. -/
theorem c2_summary_shape :
    Reporter.generateSummary e2ePass.merged =
      { total := 2, withMetaDescription := 1, missingMetaDescription := 1,
        needsAttention := 1, errors := 0, good := 1,
        percentageWithMeta := 50 } := by decide

/-- A 119-character meta description (ends with punctuation). -/
def c3Md119 : String := String.mk (List.replicate 118 'a' ++ ['.'])

set_option maxRecDepth 80000 in
/-- C3 counterexample: a fresh analysis with a missing meta description is
`needs_attention`, not `error`, and a 119-character description is
`needs_attention`, not `warning`. -/
theorem c3_counterexample :
    (MetaExtractor.extractMetaData "https://x.com/p" none none).status =
      "needs_attention" ∧
    (MetaExtractor.extractMetaData "https://x.com/p" none none).status ≠
      "error" ∧
    (MetaExtractor.extractMetaData "https://x.com/q" none
        (some c3Md119)).status ≠ "warning" := by decide

/-- C3 amended: the claimed status boundaries hold for the manual
scan-result update endpoint (`/api/scan-results/update`); fresh scanned
items instead only ever get `needs_attention` (any issue) or `good`. -/
theorem c3_status_recompute :
    (∀ (now : String) (r : PageResult) (title md : Option String),
        md.getD "" = "" →
        (applyManualUpdate now r title md).status = "error" ∧
        (applyManualUpdate now r title md).issues =
          ["Missing meta description"]) ∧
    (∀ (now : String) (r : PageResult) (title : Option String) (s : String),
        120 ≤ s.length → s.length ≤ 160 →
        (applyManualUpdate now r title (some s)).status = "good" ∧
        (applyManualUpdate now r title (some s)).issues = []) ∧
    (∀ (now : String) (r : PageResult) (title : Option String) (s : String),
        s ≠ "" → s.length < 120 →
        (applyManualUpdate now r title (some s)).status = "warning" ∧
        (applyManualUpdate now r title (some s)).issues =
          ["Meta description too short (aim for 120-160 characters)"]) ∧
    (∀ (now : String) (r : PageResult) (title : Option String) (s : String),
        160 < s.length →
        (applyManualUpdate now r title (some s)).status = "warning" ∧
        (applyManualUpdate now r title (some s)).issues =
          ["Meta description too long (aim for 120-160 characters)"]) ∧
    (∀ (url : String) (title md : Option String),
        (MetaExtractor.extractMetaData url title md).status =
          "needs_attention" ∨
        (MetaExtractor.extractMetaData url title md).status = "good") := by
  refine ⟨?_, ?_, ?_, ?_, ?_⟩
  · intro now r title md h
    simp only [applyManualUpdate]
    rw [if_pos (Or.inl h)]
    exact ⟨rfl, rfl⟩
  · intro now r title s h1 h2
    have hs : ¬((some s).getD "" = "" ∨ ((some s).getD "").length = 0) := by
      simp only [Option.getD_some]
      rw [not_or]
      constructor
      · intro he
        rw [he] at h1
        simp at h1
      · omega
    simp only [applyManualUpdate]
    rw [if_neg hs, if_pos ⟨h1, h2⟩]
    exact ⟨rfl, rfl⟩
  · intro now r title s h1 h2
    have hs : ¬((some s).getD "" = "" ∨ ((some s).getD "").length = 0) := by
      simp only [Option.getD_some]
      rw [not_or]
      refine ⟨h1, ?_⟩
      intro hz
      exact h1 (String.ext (List.length_eq_zero.mp hz))
    have hm : ¬(120 ≤ ((some s).getD "").length ∧
        ((some s).getD "").length ≤ 160) := by
      simp only [Option.getD_some]
      omega
    simp only [applyManualUpdate]
    rw [if_neg hs, if_neg hm, if_pos (show ((some s).getD "").length < 120
      from h2)]
    exact ⟨rfl, rfl⟩
  · intro now r title s h1
    have hs : ¬((some s).getD "" = "" ∨ ((some s).getD "").length = 0) := by
      simp only [Option.getD_some]
      rw [not_or]
      constructor
      · intro he
        rw [he] at h1
        simp at h1
      · omega
    have hm : ¬(120 ≤ ((some s).getD "").length ∧
        ((some s).getD "").length ≤ 160) := by
      simp only [Option.getD_some]
      omega
    have hl : ¬(((some s).getD "").length < 120) := by
      simp only [Option.getD_some]
      omega
    simp only [applyManualUpdate]
    rw [if_neg hs, if_neg hm, if_neg hl]
    exact ⟨rfl, rfl⟩
  · intro url title md
    have hst : (MetaExtractor.extractMetaData url title md).status =
        if 0 < (MetaExtractor.analyzeIssues md title).length then
          "needs_attention"
        else "good" := rfl
    rw [hst]
    split
    · exact Or.inl rfl
    · exact Or.inr rfl

/-- C3 witness: a 120-character description saved through the update
endpoint is recomputed to `good`. -/
theorem c3_status_recompute_witness :
    (applyManualUpdate "t" { url := "u" } none
        (some (String.mk (List.replicate 120 'a')))).status = "good" :=
  (c3_status_recompute.2.1 "t" { url := "u" } none
    (String.mk (List.replicate 120 'a')) (by decide) (by decide)).1

/-- The human review-workflow fields of a stored review record (an absent
record carries no workflow data). -/
def workflowOf (o : Option Review) :
    Option String × Option String × Option String × Option String ×
      Option String :=
  match o with
  | none => (none, none, none, none, none)
  | some r => (r.status, r.assignee, r.notes, r.lastReviewed, r.lastUpdated)

/-- A scan's review stamping never touches the workflow fields. -/
theorem workflowOf_updateReviewsWithScan (now : String)
    (batch : List PageResult) :
    ∀ (reviews : String → Option Review) (u : String),
      workflowOf (updateReviewsWithScan now reviews batch u) =
        workflowOf (reviews u) := by
  induction batch with
  | nil => intro reviews u; rfl
  | cons r rs ih =>
    intro reviews u
    have step : updateReviewsWithScan now reviews (r :: rs) =
        updateReviewsWithScan now
          (fun v => if v = r.url then
              some (scanStampReview now (reviews r.url) r)
            else reviews v) rs := rfl
    rw [step, ih]
    show workflowOf (if u = r.url then
        some (scanStampReview now (reviews r.url) r)
      else reviews u) = workflowOf (reviews u)
    by_cases h : u = r.url
    · rw [if_pos h, h]
      cases hrr : reviews r.url
      · rfl
      · rfl
    · rw [if_neg h]

/-- C4 counterexample: a full scan of one URL writes a review record for
it (scan metadata), so the persisted Review Store does change during a
scan. -/
theorem c4_counterexample :
    (analyzePass (fun u => MetaExtractor.extractMetaData u none none) "t1"
        "s" ["https://x.com/p"] [] (fun _ => none) "full" 100).reviewsAfter
      "https://x.com/p" =
      some { seoStatus := some "needs_attention", hasIssues := some true,
             lastAnalyzed := some "t1" } ∧
    (analyzePass (fun u => MetaExtractor.extractMetaData u none none) "t1"
        "s" ["https://x.com/p"] [] (fun _ => none) "full" 100).reviewsAfter
      "https://x.com/p" ≠ none := by decide

/-- C4 amended: scans do write the Review Store (`seoStatus`, `hasIssues`,
`lastAnalyzed`), but the human workflow fields (`status`, `assignee`,
`notes`, `lastReviewed`, `lastUpdated`) of every record survive any
analyze or selective pass unchanged; those fields change only through the
review endpoints. -/
theorem c4_workflow_preserved (fetchA : String → PageResult)
    (now sitemapUrl : String) (urls : List String)
    (existing : List PageResult) (reviews : String → Option Review)
    (scanMode : String) (maxPages : Nat) (u : String) :
    workflowOf ((analyzePass fetchA now sitemapUrl urls existing reviews
        scanMode maxPages).reviewsAfter u) = workflowOf (reviews u) ∧
    workflowOf ((selectivePass fetchA now sitemapUrl urls existing
        reviews).reviewsAfter u) = workflowOf (reviews u) := by
  constructor
  · unfold analyzePass
    by_cases hc : scanMode = "incremental" ∧
        urls.filter
          (fun v => !(existing.map (fun r => r.url)).contains v) = []
    · rw [if_pos hc]
    · rw [if_neg hc]
      exact workflowOf_updateReviewsWithScan now _ reviews u
  · exact workflowOf_updateReviewsWithScan now _ reviews u

/-- The two-page result set of the concrete tree-rollup scenario. -/
def c9Pages : List PageResult :=
  [{ url := "https://x.com/a/b", status := "good" },
   { url := "https://x.com/a/c", status := "error" }]

/-- C9 counterexample: a result whose status is the literal string
`"total"` hits the counter object's own `total` key (`hasOwnProperty`),
so it is not bucketed into `warning`: the root ends with
`{good 0, warning 0, error 0, total 2}` for a single result, not the
claimed `{warning 1, total 1}`. -/
theorem c9_counterexample :
    (buildUrlTree [{ url := "https://x.com/a", status := "total" }]).stats =
      { good := 0, warning := 0, error := 0, total := 2 } ∧
    ¬((buildUrlTree
          [{ url := "https://x.com/a", status := "total" }]).stats.warning
        = 1 ∧
      (buildUrlTree
          [{ url := "https://x.com/a", status := "total" }]).stats.total
        = 1) := by decide

/-- C9 amended: the concrete rollup holds (`/a` and the root both count
`{good 1, warning 0, error 1, total 2}`), every node's counters are its
own urls' contributions plus the sum of its children's counters, and the
per-status bucketing matches the spec's rule for every status except the
literal string `"total"` (which increments the total counter twice
instead of counting as `warning`). -/
theorem c9_tree_rollup :
    ((buildUrlTree c9Pages).children.lookup "a").map Tree.stats =
      some { good := 1, warning := 0, error := 1, total := 2 } ∧
    (buildUrlTree c9Pages).stats =
      { good := 1, warning := 0, error := 1, total := 2 } ∧
    (∀ (s : Stats) (status : String), status ≠ "total" →
      addStatus s status = specAddStatus s status) ∧
    (∀ (name path : String) (children : List (String × Tree))
        (urls : List PageResult) (st : Stats),
      (calcTree (Tree.mk name path children urls st)).2 =
        (urls.foldl (fun s r => addStatus s r.status) {}).add
          (calcChildren children).2) ∧
    (∀ children : List (String × Tree),
      (calcChildren children).2 =
        ((children.map (fun kc => (calcTree kc.2).2)).foldr Stats.add
          {})) := by
  refine ⟨by decide, by decide, ?_, ?_, ?_⟩
  · intro s status h
    unfold addStatus specAddStatus
    split_ifs <;> simp_all
  · intro name path children urls st
    rfl
  · intro children
    induction children with
    | nil => rfl
    | cons kc rest ih =>
      obtain ⟨k, c⟩ := kc
      simp only [calcChildren, List.map, List.foldr]
      rw [ih]

/-- C9 witness: the legacy `needs_attention` status buckets into
`warning`, as the spec rule predicts. -/
theorem c9_tree_rollup_witness :
    addStatus {} "needs_attention" = specAddStatus {} "needs_attention" :=
  c9_tree_rollup.2.2.1 {} "needs_attention" (by decide)

/-- Change stamping preserves the entry's URL. -/
theorem detectItem_fst_url (existing : List PageResult) (now : String)
    (r : PageResult) : ((detectItem existing now r).1).url = r.url := by
  unfold detectItem
  split <;> rfl

/-- Every change event produced for one result carries that result's
URL. -/
theorem detectItem_event_url (existing : List PageResult) (now : String)
    (r : PageResult) :
    ∀ e ∈ (detectItem existing now r).2, ChangeEvent.url e = r.url := by
  unfold detectItem
  split
  · intro e he
    rcases List.mem_append.mp he with h | h <;> split at h <;>
      simp_all [ChangeEvent.url]
  · intro e he
    simp_all [ChangeEvent.url]

/-- The stamping and single event of a URL with no stored counterpart. -/
theorem detectItem_not_found (existing : List PageResult) (now : String)
    (r : PageResult)
    (hfind : existing.find? (fun o => o.url = r.url) = none) :
    detectItem existing now r =
      ({ r with
          lastCrawled := some now
          hasChanged := some true
          changeType := some "new" },
       [ChangeEvent.newUrl r.url r.metaDescription now]) := by
  unfold detectItem
  rw [hfind]

/-- No result with a different URL contributes an event about `u`. -/
theorem filter_events_ne (existing : List PageResult) (now u : String)
    (xs : List PageResult) (hne : ∀ x ∈ xs, x.url ≠ u) :
    ((xs.map (fun x => (detectItem existing now x).2)).flatten).filter
        (fun e => decide (ChangeEvent.ctype e = "new_url" ∧
          ChangeEvent.url e = u)) = [] := by
  rw [List.filter_eq_nil_iff]
  intro e he
  obtain ⟨l, hl, hel⟩ := List.mem_flatten.mp he
  obtain ⟨x, hx, rfl⟩ := List.mem_map.mp hl
  have := detectItem_event_url existing now x e hel
  simp only [decide_eq_true_eq, not_and]
  intro _
  rw [this]
  exact hne x hx

/-- C5 amended, ledger half: across a whole `/api/analyze` change
detection, a batch with pairwise-distinct URLs produces exactly one
`new_url` event for each URL absent from the store. -/
theorem filter_events_new (existing : List PageResult) (now : String)
    (r : PageResult)
    (hfind : existing.find? (fun o => o.url = r.url) = none) :
    ∀ (rs : List PageResult), (rs.map (fun x => x.url)).Nodup → r ∈ rs →
      ((rs.map (fun x => (detectItem existing now x).2)).flatten).filter
          (fun e => decide (ChangeEvent.ctype e = "new_url" ∧
            ChangeEvent.url e = r.url)) =
        [ChangeEvent.newUrl r.url r.metaDescription now] := by
  intro rs
  induction rs with
  | nil => intro _ hr; cases hr
  | cons x xs ih =>
    intro hnd hr
    simp only [List.map_cons, List.flatten_cons, List.filter_append]
    rcases List.mem_cons.mp hr with h | h
    · subst h
      rw [detectItem_not_found existing now r hfind]
      have hxs : ∀ y ∈ xs, y.url ≠ r.url := by
        intro y hy hurl
        have : r.url ∈ xs.map (fun z => z.url) :=
          List.mem_map.mpr ⟨y, hy, hurl⟩
        exact (List.nodup_cons.mp hnd).1 this
      rw [filter_events_ne existing now r.url xs hxs]
      simp [ChangeEvent.ctype, ChangeEvent.url]
    · have hx_ne : x.url ≠ r.url := by
        intro hurl
        have : x.url ∈ xs.map (fun z => z.url) :=
          List.mem_map.mpr ⟨r, h, hurl.symm⟩
        exact (List.nodup_cons.mp hnd).1 this
      have hx_filter : ((detectItem existing now x).2).filter
          (fun e => decide (ChangeEvent.ctype e = "new_url" ∧
            ChangeEvent.url e = r.url)) = [] := by
        rw [List.filter_eq_nil_iff]
        intro e he
        have := detectItem_event_url existing now x e he
        simp only [decide_eq_true_eq, not_and]
        intro _
        rw [this]
        exact hx_ne
      rw [hx_filter, ih (List.nodup_cons.mp hnd).2 h]
      rfl

/-- C5 counterexample: the selective-scan endpoint never emits a `new_url`
change event and leaves `hasChanged` as the JS `undefined` for a URL new
to the store (the coarse `changeType` is still `"new"`). -/
theorem c5_counterexample :
    (selectivePass (fun u => { url := u, metaDescription := some "hello" })
        "t1" "s" ["https://x.com/new"] [] (fun _ => none)).ledgerAppend
      = [] ∧
    (findByUrl (selectivePass
        (fun u => { url := u, metaDescription := some "hello" }) "t1" "s"
        ["https://x.com/new"] [] (fun _ => none)).merged
      "https://x.com/new").map (fun r => (r.hasChanged, r.changeType)) =
      some (none, some "new") := by decide

/-- C5 amended: in the `/api/analyze` reconciliation, a batch URL absent
from the stored results yields exactly one change event — a `new_url`
event whose `newValue` is the fresh meta description — and its merged
entry is stamped `changeType = "new"`, `hasChanged = true`.  The
selective endpoint instead emits no events at all and leaves `hasChanged`
undefined for such URLs. -/
theorem c5_new_url_event (existing : List PageResult) (now : String)
    (rs : List PageResult) (r : PageResult)
    (hnd : (rs.map (fun x => x.url)).Nodup) (hr : r ∈ rs)
    (hnew : ∀ o ∈ existing, o.url ≠ r.url) :
    (detectChanges existing now rs).2.filter
        (fun e => decide (ChangeEvent.ctype e = "new_url" ∧
          ChangeEvent.url e = r.url)) =
      [ChangeEvent.newUrl r.url r.metaDescription now] ∧
    findByUrl (detectChanges existing now rs).1 r.url =
      some { r with
        lastCrawled := some now
        hasChanged := some true
        changeType := some "new" } := by
  have hfind : existing.find? (fun o => o.url = r.url) = none := by
    rw [List.find?_eq_none]
    intro o ho
    simpa using hnew o ho
  constructor
  · exact filter_events_new existing now r hfind rs hnd hr
  · show (rs.map (fun x => (detectItem existing now x).1)).find?
        (fun y => y.url = r.url) = _
    rw [List.find?_map]
    have hcomp : ((fun y : PageResult => decide (y.url = r.url)) ∘
        (fun x => (detectItem existing now x).1)) =
        (fun x : PageResult => decide (x.url = r.url)) := by
      funext x
      simp only [Function.comp_apply, detectItem_fst_url]
    rw [hcomp]
    have hsome : (rs.find? (fun x => decide (x.url = r.url))).isSome := by
      rw [List.find?_isSome]
      exact ⟨r, hr, by simp⟩
    obtain ⟨a, ha⟩ := Option.isSome_iff_exists.mp hsome
    have hpa : a.url = r.url := by simpa using List.find?_some ha
    have hma : a ∈ rs := List.mem_of_find?_eq_some ha
    have har : a = r := List.inj_on_of_nodup_map hnd hma hr hpa
    rw [ha, har]
    show some ((detectItem existing now r).1) = _
    rw [detectItem_not_found existing now r hfind]

/-- C5 witness: one fresh page, empty store. -/
theorem c5_new_url_event_witness :
    (detectChanges [] "t1"
        [{ url := "https://x.com/n", metaDescription := some "d" }]).2.filter
        (fun e => decide (ChangeEvent.ctype e = "new_url" ∧
          ChangeEvent.url e =
            ({ url := "https://x.com/n", metaDescription := some "d" } :
              PageResult).url)) =
      [ChangeEvent.newUrl "https://x.com/n" (some "d") "t1"] ∧
    findByUrl (detectChanges [] "t1"
        [{ url := "https://x.com/n", metaDescription := some "d" }]).1
      "https://x.com/n" =
      some { url := "https://x.com/n", metaDescription := some "d",
             lastCrawled := some "t1", hasChanged := some true,
             changeType := some "new" } :=
  c5_new_url_event [] "t1"
    [{ url := "https://x.com/n", metaDescription := some "d" }]
    { url := "https://x.com/n", metaDescription := some "d" }
    (by decide) (by decide) (by decide)

/-- In-place replacement keeps the URL sequence unchanged. -/
theorem replaceFirst_map_url (nr : PageResult) (l : List PageResult) :
    (replaceFirst nr l).map (fun r => r.url) = l.map (fun r => r.url) := by
  induction l with
  | nil => rfl
  | cons r rs ih =>
    unfold replaceFirst
    by_cases h : r.url = nr.url
    · rw [if_pos h]
      simp [h]
    · rw [if_neg h]
      simp [ih]

/-- Replacing the first URL match puts the new entry where `find?` looks
first. -/
theorem find?_replaceFirst_self (nr : PageResult) (l : List PageResult)
    (h : l.any (fun r => decide (r.url = nr.url)) = true) :
    findByUrl (replaceFirst nr l) nr.url = some nr := by
  induction l with
  | nil => simp at h
  | cons r rs ih =>
    unfold replaceFirst
    by_cases hr : r.url = nr.url
    · rw [if_pos hr]
      simp [findByUrl]
    · rw [if_neg hr]
      have h' : rs.any (fun x => decide (x.url = nr.url)) = true := by
        simp only [List.any_cons, hr, decide_False, Bool.false_or] at h
        exact h
      show (r :: replaceFirst nr rs).find? (fun x => x.url = nr.url) = _
      rw [List.find?_cons_of_neg _ (by simpa using hr)]
      exact ih h'

/-- Replacement at one URL leaves lookups of any other URL unchanged. -/
theorem find?_replaceFirst_ne (nr : PageResult) (l : List PageResult)
    (u : String) (hu : u ≠ nr.url) :
    findByUrl (replaceFirst nr l) u = findByUrl l u := by
  induction l with
  | nil => rfl
  | cons r rs ih =>
    unfold replaceFirst
    by_cases hr : r.url = nr.url
    · rw [if_pos hr]
      show (nr :: rs).find? (fun x => x.url = u) =
        (r :: rs).find? (fun x => x.url = u)
      rw [List.find?_cons_of_neg _ (by simp; exact fun hh => hu hh.symm),
        List.find?_cons_of_neg _ (by simp [hr]; exact fun hh => hu hh.symm)]
    · rw [if_neg hr]
      show (r :: replaceFirst nr rs).find? (fun x => x.url = u) =
        (r :: rs).find? (fun x => x.url = u)
      by_cases hru : r.url = u
      · rw [List.find?_cons_of_pos _ (by simpa using hru),
          List.find?_cons_of_pos _ (by simpa using hru)]
      · rw [List.find?_cons_of_neg _ (by simpa using hru),
          List.find?_cons_of_neg _ (by simpa using hru)]
        exact ih

/-- After replace-or-append, the new entry is what lookup at its URL
finds. -/
theorem find?_replaceOrAppend_self (acc : List PageResult)
    (nr : PageResult) :
    findByUrl (replaceOrAppend acc nr) nr.url = some nr := by
  unfold replaceOrAppend
  by_cases h : acc.any (fun r => decide (r.url = nr.url)) = true
  · rw [if_pos h]
    exact find?_replaceFirst_self nr acc h
  · rw [if_neg h]
    have hnone : acc.find? (fun r => decide (r.url = nr.url)) = none := by
      rw [List.find?_eq_none]
      intro x hx hpx
      exact h (List.any_eq_true.mpr ⟨x, hx, hpx⟩)
    show (acc ++ [nr]).find? (fun r => r.url = nr.url) = some nr
    rw [List.find?_append, hnone]
    simp

/-- Replace-or-append leaves lookups of any other URL unchanged. -/
theorem find?_replaceOrAppend_ne (acc : List PageResult) (nr : PageResult)
    (u : String) (hu : u ≠ nr.url) :
    findByUrl (replaceOrAppend acc nr) u = findByUrl acc u := by
  unfold replaceOrAppend
  by_cases h : acc.any (fun r => decide (r.url = nr.url)) = true
  · rw [if_pos h]
    exact find?_replaceFirst_ne nr acc u hu
  · rw [if_neg h]
    show (acc ++ [nr]).find? (fun r => r.url = u) =
      acc.find? (fun r => r.url = u)
    rw [List.find?_append]
    have : ([nr].find? (fun r => decide (r.url = u))) = none := by
      rw [List.find?_eq_none]
      intro x hx
      simp only [List.mem_singleton] at hx
      subst hx
      simp
      exact fun hh => hu hh.symm
    rw [this]
    cases acc.find? (fun r => decide (r.url = u)) <;> rfl

/-- The selective merge, observed through URL lookup: a URL rescanned in
the batch resolves to its (unique) fresh entry, any other URL resolves to
whatever the prior store held. -/
theorem selectiveMerge_findByUrl (fresh : List PageResult) :
    ∀ (acc : List PageResult),
      ((fresh.map (fun r => r.url)).Nodup) → ∀ u,
      findByUrl (selectiveMerge acc fresh) u =
        (findByUrl fresh u).or (findByUrl acc u) := by
  induction fresh with
  | nil =>
    intro acc _ u
    rfl
  | cons nr rest ih =>
    intro acc hnd u
    have step : selectiveMerge acc (nr :: rest) =
        selectiveMerge (replaceOrAppend acc nr) rest := rfl
    rw [step, ih (replaceOrAppend acc nr) (List.nodup_cons.mp hnd).2 u]
    by_cases hu : u = nr.url
    · have hrest : findByUrl rest u = none := by
        rw [findByUrl, List.find?_eq_none]
        intro x hx
        simp only [decide_eq_true_eq]
        intro hxu
        exact (List.nodup_cons.mp hnd).1
          (List.mem_map.mpr ⟨x, hx, hxu.trans hu⟩)
      have hhead : findByUrl (nr :: rest) u = some nr := by
        show (nr :: rest).find? (fun x => x.url = u) = some nr
        rw [List.find?_cons_of_pos _ (by simp [hu])]
      rw [hrest, hhead, Option.none_or, hu]
      exact find?_replaceOrAppend_self acc nr
    · have hhead : findByUrl (nr :: rest) u = findByUrl rest u := by
        show (nr :: rest).find? (fun x => x.url = u) = _
        rw [List.find?_cons_of_neg _ (by simp; exact fun hh => hu hh.symm)]
        rfl
      rw [find?_replaceOrAppend_ne acc nr u hu, hhead]

/-- The selective merge, observed through the URL sequence: prior order is
preserved and genuinely new URLs are appended in batch order. -/
theorem selectiveMerge_map_url (fresh : List PageResult) :
    ∀ (acc : List PageResult),
      ((fresh.map (fun r => r.url)).Nodup) →
      (selectiveMerge acc fresh).map (fun r => r.url) =
        acc.map (fun r => r.url) ++
          (fresh.filter
            (fun f => !(acc.map (fun r => r.url)).contains f.url)).map
            (fun r => r.url) := by
  induction fresh with
  | nil =>
    intro acc _
    simp [selectiveMerge]
  | cons nr rest ih =>
    intro acc hnd
    have step : selectiveMerge acc (nr :: rest) =
        selectiveMerge (replaceOrAppend acc nr) rest := rfl
    rw [step, ih (replaceOrAppend acc nr) (List.nodup_cons.mp hnd).2]
    by_cases hin : nr.url ∈ acc.map (fun r => r.url)
    · have hany : acc.any (fun r => decide (r.url = nr.url)) = true := by
        rw [List.any_eq_true]
        obtain ⟨x, hx, hxu⟩ := List.mem_map.mp hin
        exact ⟨x, hx, by simpa using hxu⟩
      have hroa : replaceOrAppend acc nr = replaceFirst nr acc := by
        unfold replaceOrAppend
        rw [if_pos hany]
      have hcont : (acc.map (fun r => r.url)).contains nr.url = true :=
        List.elem_iff.mpr hin
      have hfil : (nr :: rest).filter
          (fun f => !(acc.map (fun r => r.url)).contains f.url) =
          rest.filter
            (fun f => !(acc.map (fun r => r.url)).contains f.url) := by
        rw [List.filter_cons_of_neg]
        simp only [hcont, Bool.not_true, Bool.false_eq_true,
          not_false_eq_true]
      rw [hroa, replaceFirst_map_url, hfil]
    · have hany : acc.any (fun r => decide (r.url = nr.url)) = false := by
        cases hval : acc.any (fun r => decide (r.url = nr.url))
        · rfl
        · exfalso
          obtain ⟨x, hx, hxu⟩ := List.any_eq_true.mp hval
          simp only [decide_eq_true_eq] at hxu
          exact hin (List.mem_map.mpr ⟨x, hx, hxu⟩)
      have hroa : replaceOrAppend acc nr = acc ++ [nr] := by
        unfold replaceOrAppend
        rw [if_neg (by rw [hany]; simp)]
      have hcont : (acc.map (fun r => r.url)).contains nr.url = false := by
        cases hval : (acc.map (fun r => r.url)).contains nr.url
        · rfl
        · exact absurd (List.elem_iff.mp hval) hin
      have hfil2 : rest.filter
          (fun f => !((acc ++ [nr]).map (fun r => r.url)).contains f.url) =
          rest.filter
            (fun f => !(acc.map (fun r => r.url)).contains f.url) := by
        apply List.filter_congr
        intro f hf
        have hfne : f.url ≠ nr.url := fun hh =>
          (List.nodup_cons.mp hnd).1 (List.mem_map.mpr ⟨f, hf, hh⟩)
        simp [List.elem_iff, hfne]
      have hfil3 : (nr :: rest).filter
          (fun f => !(acc.map (fun r => r.url)).contains f.url) =
          nr :: rest.filter
            (fun f => !(acc.map (fun r => r.url)).contains f.url) := by
        rw [List.filter_cons_of_pos]
        simp only [hcont, Bool.not_false]
      rw [hroa, hfil2, hfil3, List.map_append, List.map_cons]
      simp

/-- The sitemap stamp on save does not change the URL. -/
theorem stamp_url (s : String) (r : PageResult) :
    ({ r with sitemapUrl := some s } : PageResult).url = r.url := rfl

/-- Review annotation does not change the URL. -/
theorem annotateResult_url (reviews : String → Option Review)
    (r : PageResult) : (annotateResult reviews r).url = r.url := rfl

/-- Lookup in the stamped store is lookup in the merged list, stamped. -/
theorem findByUrl_saveScanResultsShape (s : String) (l : List PageResult)
    (u : String) :
    findByUrl (saveScanResultsShape s l) u =
      (findByUrl l u).map (fun r => { r with sitemapUrl := some s }) := by
  unfold saveScanResultsShape findByUrl
  rw [List.find?_map]
  have hcomp : ((fun r : PageResult => decide (r.url = u)) ∘
      (fun r => { r with sitemapUrl := some s })) =
      (fun r : PageResult => decide (r.url = u)) := funext fun r => rfl
  rw [hcomp]

/-- Stamping an already-stamped entry is the identity. -/
theorem stamp_id (s : String) (r : PageResult)
    (h : r.sitemapUrl = some s) :
    ({ r with sitemapUrl := some s } : PageResult) = r := by
  cases r
  simp_all

/-- C1 amended: a selective pass persists the union by URL — the store is
the prior entries in order with same-URL entries overwritten in place by
the annotated fresh batch, entries not rescanned retained unchanged, and
genuinely new URLs appended to the end in batch order — while a full pass
persists exactly the fresh batch URL-for-URL, dropping entries present
only in the prior store. -/
theorem c1_store_union (fetchA : String → PageResult)
    (now sitemapUrl : String) (urls : List String)
    (existing : List PageResult) (reviews : String → Option Review)
    (maxPages : Nat)
    (hnd : ((selectiveFresh fetchA now existing reviews urls).map
      (fun r => r.url)).Nodup)
    (hstamped : ∀ r ∈ existing, r.sitemapUrl = some sitemapUrl) :
    (selectivePass fetchA now sitemapUrl urls existing
        reviews).persistedStore =
      some (saveScanResultsShape sitemapUrl
        (selectiveMerge existing
          (selectiveFresh fetchA now existing reviews urls))) ∧
    (∀ u f,
      findByUrl (selectiveFresh fetchA now existing reviews urls) u =
        some f →
      findByUrl (saveScanResultsShape sitemapUrl
          (selectiveMerge existing
            (selectiveFresh fetchA now existing reviews urls))) u =
        some { f with sitemapUrl := some sitemapUrl }) ∧
    (∀ u,
      findByUrl (selectiveFresh fetchA now existing reviews urls) u =
        none →
      findByUrl (saveScanResultsShape sitemapUrl
          (selectiveMerge existing
            (selectiveFresh fetchA now existing reviews urls))) u =
        findByUrl existing u) ∧
    ((selectiveMerge existing
        (selectiveFresh fetchA now existing reviews urls)).map
        (fun r => r.url) =
      existing.map (fun r => r.url) ++
        ((selectiveFresh fetchA now existing reviews urls).filter
          (fun f =>
            !(existing.map (fun r => r.url)).contains f.url)).map
          (fun r => r.url)) ∧
    (((analyzePass fetchA now sitemapUrl urls existing reviews "full"
        maxPages).persistedStore.getD []).map (fun r => r.url) =
      ((urls.take maxPages).map fetchA).map (fun r => r.url)) := by
  refine ⟨rfl, ?_, ?_, ?_, ?_⟩
  · intro u f hf
    rw [findByUrl_saveScanResultsShape,
      selectiveMerge_findByUrl _ existing hnd u, hf]
    rfl
  · intro u hn
    rw [findByUrl_saveScanResultsShape,
      selectiveMerge_findByUrl _ existing hnd u, hn, Option.none_or]
    cases hfind : findByUrl existing u with
    | none => rfl
    | some a =>
      have hmem : a ∈ existing := List.mem_of_find?_eq_some hfind
      show some ({ a with sitemapUrl := some sitemapUrl } : PageResult) =
        some a
      rw [stamp_id sitemapUrl a (hstamped a hmem)]
  · exact selectiveMerge_map_url _ existing hnd
  · have hfull : (analyzePass fetchA now sitemapUrl urls existing reviews
        "full" maxPages).persistedStore =
        some (saveScanResultsShape sitemapUrl
          (detectChanges existing now
            (((urls.take maxPages).map fetchA).map
              (annotateResult (updateReviewsWithScan now reviews
                ((urls.take maxPages).map fetchA))))).1) := by
      unfold analyzePass
      rw [if_neg (by simp)]
      rfl
    rw [hfull]
    show (saveScanResultsShape sitemapUrl _).map (fun r => r.url) = _
    unfold saveScanResultsShape detectChanges
    rw [List.map_map, List.map_map, List.map_map]
    apply List.map_congr_left
    intro x _
    simp only [Function.comp_apply, stamp_url, detectItem_fst_url,
      annotateResult_url]

/-- C1 counterexample: a full pass drops an entry present only in the
prior store (only the freshly scanned URL is persisted), and an
incremental pass does not retain non-rescanned entries unchanged — it
restamps their `lastCrawled` to the new scan's timestamp. -/
theorem c1_counterexample :
    ((analyzePass (fun u => { url := u }) "t1" "s" ["https://x.com/b"]
        [{ url := "https://x.com/a", sitemapUrl := some "s" }]
        (fun _ => none) "full" 100).persistedStore.getD []).map
      (fun r => r.url) = ["https://x.com/b"] ∧
    (findByUrl ((analyzePass (fun u => { url := u }) "t1" "s"
        ["https://x.com/b"]
        [{ url := "https://x.com/a", sitemapUrl := some "s",
           lastCrawled := some "t0" }]
        (fun _ => none) "incremental" 100).persistedStore.getD [])
      "https://x.com/a").map (fun r => r.lastCrawled) =
      some (some "t1") := by decide

/-- C1 witness: the concrete selective pass appends the one new URL after
the retained entry. -/
theorem c1_store_union_witness :
    (selectiveMerge [{ url := "https://x.com/a", sitemapUrl := some "s" }]
        (selectiveFresh (fun u => { url := u }) "t1"
          [{ url := "https://x.com/a", sitemapUrl := some "s" }]
          (fun _ => none) ["https://x.com/b"])).map (fun r => r.url) =
      ["https://x.com/a", "https://x.com/b"] :=
  ((c1_store_union (fun u => { url := u }) "t1" "s" ["https://x.com/b"]
      [{ url := "https://x.com/a", sitemapUrl := some "s" }]
      (fun _ => none) 100 (by decide) (by decide)).2.2.2.1).trans
    (by decide)

end SEO
